import Mathlib

/-!
# Verification of `poem-typed-multipart`

A shallow embedding of the `poem-typed-multipart` crate: the part-to-value
conversion registry (`src/part.rs`), the per-request field map
(`src/map.rs`), and the derive-macro code generator
(`src/poem-typed-multipart-macro/src/lib.rs`), together with proofs of the
behavioural properties stated in the specification.

Modelling conventions:
* Rust byte payloads (`&[u8]`, `Vec<u8>`) are `List Nat` (each entry a byte
  value; values ≥ 256 cannot arise from real input and are rejected by every
  validating decoder).
* Rust `String` / `&str` values are `List Char` (a sequence of Unicode scalar
  values, which is exactly what a Rust `String` is; Lean's `Char` carries the
  scalar-value invariant).
* Part names, field keys and error messages use Lean `String`.
* Fallible Rust functions returning `Result` become `Except`.
* Machine integers are `Nat` / `Int` with explicit bounds where the Rust type
  width matters (overflow checks in `parse`).

Functions from the Rust standard library that the crate calls
(`String::from_utf8`, `str::parse` for the primitive types, `HashMap`
insertion/lookup) are modelled here faithfully to their documented behaviour,
since the crate's contract depends on them.
-/

deriving instance DecidableEq for Except

namespace PoemTypedMultipart

/-! ## Models of Rust standard-library error types

Each mirrors the corresponding `std` error type and its `Display` output,
which is what `poem::error::BadRequest` turns into the client-visible
message. -/

/-- Model of `std::string::FromUtf8Error`. The real type records the
position and length of the first invalid sequence; no property verified here
inspects that data, so the model carries none and renders a fixed message. -/
structure FromUtf8Error where
  mk ::
deriving DecidableEq

def FromUtf8Error.message (_ : FromUtf8Error) : String :=
  "invalid utf-8 sequence"

/-- Model of `std::num::ParseIntError` (its `IntErrorKind`). -/
inductive ParseIntError where
  | empty
  | invalidDigit
  | posOverflow
  | negOverflow
deriving DecidableEq

def ParseIntError.message : ParseIntError → String
  | .empty => "cannot parse integer from empty string"
  | .invalidDigit => "invalid digit found in string"
  | .posOverflow => "number too large to fit in target type"
  | .negOverflow => "number too small to fit in target type"

/-- Model of `std::num::ParseFloatError`. -/
inductive ParseFloatError where
  | empty
  | invalid
deriving DecidableEq

def ParseFloatError.message : ParseFloatError → String
  | .empty => "cannot parse float from empty string"
  | .invalid => "invalid float literal"

/-- Model of `std::str::ParseBoolError`. -/
structure ParseBoolError where
  mk ::
deriving DecidableEq

def ParseBoolError.message (_ : ParseBoolError) : String :=
  "provided string was not `true` or `false`"

/-- Model of `std::char::ParseCharError` (its `CharErrorKind`). -/
inductive ParseCharError where
  | emptyString
  | tooManyChars
deriving DecidableEq

def ParseCharError.message : ParseCharError → String
  | .emptyString => "cannot parse char from empty string"
  | .tooManyChars => "too many characters in string"

/-! ## UTF-8 encoding and decoding

Model of the UTF-8 validation performed by `String::from_utf8`: a byte
sequence decodes iff it is well-formed UTF-8 (no truncated sequences, no
overlong forms, no surrogates, no values above `0x10FFFF`), and then decodes
to its sequence of Unicode scalar values. -/

/-- The UTF-8 encoding of one Unicode scalar value (1–4 bytes). -/
def utf8EncodeChar (c : Char) : List Nat :=
  let n := c.toNat
  if n < 0x80 then [n]
  else if n < 0x800 then [0xC0 + n / 64, 0x80 + n % 64]
  else if n < 0x10000 then
    [0xE0 + n / 4096, 0x80 + n / 64 % 64, 0x80 + n % 64]
  else
    [0xF0 + n / 262144, 0x80 + n / 4096 % 64, 0x80 + n / 64 % 64,
      0x80 + n % 64]

/-- The UTF-8 encoding of a string (concatenation of its scalars' encodings). -/
def utf8Encode : List Char → List Nat
  | [] => []
  | c :: cs => utf8EncodeChar c ++ utf8Encode cs

/-- Whether a byte is a UTF-8 continuation byte (`10xxxxxx`). -/
def isCont (b : Nat) : Bool :=
  0x80 ≤ b && b < 0xC0

/-- Decode one UTF-8 sequence from the front of a byte list, returning the
scalar and the remaining bytes. The accepted set matches `std`'s validator:
ASCII, two-byte forms with lead `0xC2–0xDF` (lead `0xC0`/`0xC1` would be
overlong), three-byte forms rejecting overlongs (`< 0x800`) and surrogates,
four-byte forms rejecting overlongs (`< 0x10000`) and values past
`0x10FFFF` (lead `≥ 0xF5` can only produce such values). -/
def utf8DecodeOne (l : List Nat) : Option (Char × List Nat) :=
  match l with
  | [] => none
  | b :: rest =>
    if b < 0x80 then some (Char.ofNat b, rest)
    else if b < 0xC2 then none
    else if b < 0xE0 then
      match rest with
      | b2 :: rest2 =>
        if isCont b2 then
          some (Char.ofNat ((b - 0xC0) * 64 + (b2 - 0x80)), rest2)
        else none
      | [] => none
    else if b < 0xF0 then
      match rest with
      | b2 :: b3 :: rest3 =>
        if isCont b2 && isCont b3 then
          let v := (b - 0xE0) * 4096 + (b2 - 0x80) * 64 + (b3 - 0x80)
          if 0x800 ≤ v && !(0xD800 ≤ v && v < 0xE000) then
            some (Char.ofNat v, rest3)
          else none
        else none
      | _ => none
    else if b < 0xF5 then
      match rest with
      | b2 :: b3 :: b4 :: rest4 =>
        if isCont b2 && isCont b3 && isCont b4 then
          let v := (b - 0xF0) * 262144 + (b2 - 0x80) * 4096 +
            (b3 - 0x80) * 64 + (b4 - 0x80)
          if 0x10000 ≤ v && v < 0x110000 then
            some (Char.ofNat v, rest4)
          else none
        else none
      | _ => none
    else none

/-- Decoding loop, structurally recursive on a fuel argument. Each accepted
sequence consumes at least one byte, so fuel equal to the byte count (as
supplied by `utf8Decode`) is never exhausted. -/
def utf8DecodeAux : Nat → List Nat → Option (List Char)
  | _, [] => some []
  | 0, _ :: _ => none
  | fuel + 1, b :: rest =>
    match utf8DecodeOne (b :: rest) with
    | none => none
    | some (c, rest') => (utf8DecodeAux fuel rest').map (fun cs => c :: cs)

/-- Decode a byte sequence as UTF-8, or fail on the first ill-formed
sequence (model of the validation performed by `String::from_utf8`). -/
def utf8Decode (l : List Nat) : Option (List Char) :=
  utf8DecodeAux l.length l

/-- Model of `String::from_utf8(body.to_vec())`, the body of
`<String as FromMultiPartPart>::from_bytes` in `src/part.rs`. -/
def stringFromBytes (body : List Nat) : Except FromUtf8Error (List Char) :=
  match utf8Decode body with
  | some s => .ok s
  | none => .error ⟨⟩

/-! ## Models of `str::parse` for the primitive types -/

/-- The value of a decimal ASCII digit, or `none` (model of
`char::to_digit(10)`). -/
def digitVal (c : Char) : Option Nat :=
  if '0' ≤ c && c ≤ '9' then some (c.toNat - 48) else none

/-- Digit-accumulation loop of `from_str_radix` for an unsigned target type
whose excluded upper bound is `bound` (so `bound = 2 ^ 32` for `u32`). Rust
multiplies and adds with checked arithmetic and fails with `PosOverflow` at
the first step whose result would exceed the type; since the accumulator
only grows, that is exactly the first step whose exact value reaches
`bound`. -/
def parseDigitsGo (bound : Nat) : List Char → Nat → Except ParseIntError Nat
  | [], acc => .ok acc
  | c :: rest, acc =>
    match digitVal c with
    | none => .error .invalidDigit
    | some d =>
      if bound ≤ acc * 10 + d then .error .posOverflow
      else parseDigitsGo bound rest (acc * 10 + d)

/-- Model of `<uN as FromStr>::from_str` (via `from_str_radix` with radix
10): empty input fails with `Empty`; a leading `+` is consumed (a bare sign
or a leading `-` on an unsigned type is `InvalidDigit`); then decimal digits
accumulate under the overflow check. -/
def parseUnsigned (bound : Nat) (s : List Char) : Except ParseIntError Nat :=
  match s with
  | [] => .error .empty
  | c :: rest =>
    if c = '+' then
      match rest with
      | [] => .error .invalidDigit
      | _ => parseDigitsGo bound rest 0
    else if c = '-' then .error .invalidDigit
    else parseDigitsGo bound (c :: rest) 0

/-- Model of `<iN as FromStr>::from_str` for a signed target type with
magnitude bound `bound = 2 ^ (w - 1)` (so values range over
`[-bound, bound)`). Rust accumulates negatively after a `-` sign with
checked subtraction; since the magnitude only grows, the first failing step
is exactly the first step whose exact magnitude leaves the range. -/
def parseSigned (bound : Nat) (s : List Char) : Except ParseIntError Int :=
  match s with
  | [] => .error .empty
  | c :: rest =>
    if c = '+' then
      match rest with
      | [] => .error .invalidDigit
      | _ =>
        match parseDigitsGo bound rest 0 with
        | .error e => .error e
        | .ok v => .ok (v : Int)
    else if c = '-' then
      match rest with
      | [] => .error .invalidDigit
      | _ =>
        match parseDigitsGo (bound + 1) rest 0 with
        | .error .posOverflow => .error .negOverflow
        | .error e => .error e
        | .ok v => .ok (-(v : Int))
    else
      match parseDigitsGo bound (c :: rest) 0 with
      | .error e => .error e
      | .ok v => .ok (v : Int)

/-- Model of `<bool as FromStr>::from_str`: exactly `"true"` or `"false"`. -/
def parseRustBool (s : List Char) : Except ParseBoolError Bool :=
  if s = ['t', 'r', 'u', 'e'] then .ok true
  else if s = ['f', 'a', 'l', 's', 'e'] then .ok false
  else .error ⟨⟩

/-- Model of `<char as FromStr>::from_str`: exactly one character. -/
def parseRustChar (s : List Char) : Except ParseCharError Char :=
  match s with
  | [] => .error .emptyString
  | [c] => .ok c
  | _ :: _ :: _ => .error .tooManyChars

/-! ### Model of `f32`/`f64` parsing

Rust's float `from_str` accepts, per its documentation,
`Sign? ( inf | infinity | nan | Number )` with
`Number ::= ( Digit+ | Digit+ . Digit* | Digit* . Digit+ ) Exp?` and
`Exp ::= (e | E) Sign? Digit+`, the words case-insensitive, and rounds the
resulting decimal to the nearest float. IEEE rounding is not modelled: the
parsed value is represented exactly as a signed decimal
`mantissa × 10 ^ exp10`. Every property verified here concerns only which
inputs parse and how failures are staged and reported, never float
arithmetic, so the exact-decimal representation is observationally adequate
for them. -/

/-- The result of float parsing: an exact decimal, an infinity, or a NaN. -/
inductive RustFloatVal where
  | finite (neg : Bool) (mantissa : Nat) (exp10 : Int)
  | inf (neg : Bool)
  | nan
deriving DecidableEq

/-- ASCII-lowercase a character (for the case-insensitive float words). -/
def asciiLower (c : Char) : Char :=
  if 'A' ≤ c && c ≤ 'Z' then Char.ofNat (c.toNat + 32) else c

/-- Numeric value of a digit string (most significant first). -/
def digitsToNat (ds : List Char) : Nat :=
  ds.foldl (fun acc c => acc * 10 + ((digitVal c).getD 0)) 0

/-- Split an optional leading sign off a numeric literal (the sign
handling of Rust's float parser): whether a `-` was found, and the rest of
the input. -/
def splitSign : List Char → Bool × List Char
  | [] => (false, [])
  | c :: r =>
    if c = '+' then (false, r)
    else if c = '-' then (true, r)
    else (false, c :: r)

/-- Parse the optional exponent suffix; `none` marks a malformed literal. -/
def parseFloatExp (s : List Char) : Option Int :=
  match s with
  | [] => some 0
  | e :: rest =>
    if e = 'e' || e = 'E' then
      let (negE, digs) := splitSign rest
      if digs ≠ [] && digs.all (fun c => (digitVal c).isSome) then
        some (if negE then -(digitsToNat digs : Int) else (digitsToNat digs : Int))
      else none
    else none

/-- Parse the number part (after the sign) of a float literal. -/
def parseFloatNumber (neg : Bool) (s : List Char) :
    Except ParseFloatError RustFloatVal :=
  let intDigits := s.takeWhile (fun c => (digitVal c).isSome)
  let rest1 := s.dropWhile (fun c => (digitVal c).isSome)
  match rest1 with
  | '.' :: rest2 =>
    let fracDigits := rest2.takeWhile (fun c => (digitVal c).isSome)
    let rest3 := rest2.dropWhile (fun c => (digitVal c).isSome)
    if intDigits = [] && fracDigits = [] then .error .invalid
    else
      match parseFloatExp rest3 with
      | none => .error .invalid
      | some e =>
        .ok (.finite neg (digitsToNat (intDigits ++ fracDigits))
          (e - fracDigits.length))
  | _ =>
    if intDigits = [] then .error .invalid
    else
      match parseFloatExp rest1 with
      | none => .error .invalid
      | some e => .ok (.finite neg (digitsToNat intDigits) e)

/-- Model of `<f32 as FromStr>::from_str` / `<f64 as FromStr>::from_str`
up to IEEE rounding (see the section comment). Both widths share one
grammar; they differ only in the rounding step, which is not modelled, so
one function serves both. -/
def parseRustFloat (s : List Char) : Except ParseFloatError RustFloatVal :=
  match s with
  | [] => .error .empty
  | _ :: _ =>
    let (neg, t) := splitSign s
    let low := t.map asciiLower
    if low = ['i', 'n', 'f'] then .ok (.inf neg)
    else if low = ['i', 'n', 'f', 'i', 'n', 'i', 't', 'y'] then .ok (.inf neg)
    else if low = ['n', 'a', 'n'] then .ok .nan
    else parseFloatNumber neg t

/-! ## `src/part.rs`: the part-converter registry

Each `Deserialize…Error` enum mirrors the one declared in `src/part.rs`,
with the message text of its `thiserror` `#[error(…)]` attribute. Note that
in the source the UTF-8 variant of `DeserializeIntError` does not append the
underlying message (its attribute has no `{0}` interpolation), while the
float/bool/char enums do; the model reproduces that asymmetry. -/

/-- Model of `part.rs`'s `DeserializeIntError`. -/
inductive DeserializeIntError where
  | convertionToString (e : FromUtf8Error)
  | convertionToInt (e : ParseIntError)
deriving DecidableEq

def DeserializeIntError.message : DeserializeIntError → String
  | .convertionToString _ => "Could not convert the value to UTF-8"
  | .convertionToInt e =>
    "Could not parse the value as a integer: " ++ e.message

/-- Model of `part.rs`'s `DeserializeFloatError`. -/
inductive DeserializeFloatError where
  | convertionToString (e : FromUtf8Error)
  | convertionToFloat (e : ParseFloatError)
deriving DecidableEq

def DeserializeFloatError.message : DeserializeFloatError → String
  | .convertionToString e =>
    "Could not convert the value to UTF-8: " ++ e.message
  | .convertionToFloat e =>
    "Could not parse the value as float: " ++ e.message

/-- Model of `part.rs`'s `DeserializeBoolError` (whose second variant is
named `ConvertionToFloat` in the source despite wrapping a bool-parse
error). -/
inductive DeserializeBoolError where
  | convertionToString (e : FromUtf8Error)
  | convertionToFloat (e : ParseBoolError)
deriving DecidableEq

def DeserializeBoolError.message : DeserializeBoolError → String
  | .convertionToString e =>
    "Could not convert the value to UTF-8: " ++ e.message
  | .convertionToFloat e =>
    "Could not parse the value as boolean: " ++ e.message

/-- Model of `part.rs`'s `DeserializeCharError`. -/
inductive DeserializeCharError where
  | convertionToString (e : FromUtf8Error)
  | convertionToChar (e : ParseCharError)
deriving DecidableEq

def DeserializeCharError.message : DeserializeCharError → String
  | .convertionToString e =>
    "Could not convert the value to UTF-8: " ++ e.message
  | .convertionToChar e =>
    "Could not parse the value as character: " ++ e.message

/-- Model of the `from_bytes` body emitted by the `impl_stringly_types!`
macro in `src/part.rs`:
`let value = String::from_bytes(body)?.parse()?; Ok(value)`.
`fromUtf8` and `fromParse` are the `From` conversions the two `?` operators
apply (the `#[from]` variants of the per-type error enum). -/
def stringlyFromBytes {α ε π : Type} (parse : List Char → Except π α)
    (fromUtf8 : FromUtf8Error → ε) (fromParse : π → ε)
    (body : List Nat) : Except ε α :=
  match stringFromBytes body with
  | .error e => .error (fromUtf8 e)
  | .ok s =>
    match parse s with
    | .error e => .error (fromParse e)
    | .ok v => .ok v

/-- Exclusive upper bound of `uN` (`2 ^ N`). -/
def uBound (w : Nat) : Nat := 2 ^ w

/-- Magnitude bound of `iN` (`2 ^ (N - 1)`). -/
def iBound (w : Nat) : Nat := 2 ^ (w - 1)

/-- Model of `<u8 as FromMultiPartPart>::from_bytes`. -/
def u8FromBytes : List Nat → Except DeserializeIntError Nat :=
  stringlyFromBytes (parseUnsigned (uBound 8)) .convertionToString .convertionToInt

/-- Model of `<u16 as FromMultiPartPart>::from_bytes`. -/
def u16FromBytes : List Nat → Except DeserializeIntError Nat :=
  stringlyFromBytes (parseUnsigned (uBound 16)) .convertionToString .convertionToInt

/-- Model of `<u32 as FromMultiPartPart>::from_bytes`. -/
def u32FromBytes : List Nat → Except DeserializeIntError Nat :=
  stringlyFromBytes (parseUnsigned (uBound 32)) .convertionToString .convertionToInt

/-- Model of `<u64 as FromMultiPartPart>::from_bytes`. -/
def u64FromBytes : List Nat → Except DeserializeIntError Nat :=
  stringlyFromBytes (parseUnsigned (uBound 64)) .convertionToString .convertionToInt

/-- Model of `<u128 as FromMultiPartPart>::from_bytes`. -/
def u128FromBytes : List Nat → Except DeserializeIntError Nat :=
  stringlyFromBytes (parseUnsigned (uBound 128)) .convertionToString .convertionToInt

/-- Model of `<i8 as FromMultiPartPart>::from_bytes`. -/
def i8FromBytes : List Nat → Except DeserializeIntError Int :=
  stringlyFromBytes (parseSigned (iBound 8)) .convertionToString .convertionToInt

/-- Model of `<i16 as FromMultiPartPart>::from_bytes`. -/
def i16FromBytes : List Nat → Except DeserializeIntError Int :=
  stringlyFromBytes (parseSigned (iBound 16)) .convertionToString .convertionToInt

/-- Model of `<i32 as FromMultiPartPart>::from_bytes`. -/
def i32FromBytes : List Nat → Except DeserializeIntError Int :=
  stringlyFromBytes (parseSigned (iBound 32)) .convertionToString .convertionToInt

/-- Model of `<i64 as FromMultiPartPart>::from_bytes`. -/
def i64FromBytes : List Nat → Except DeserializeIntError Int :=
  stringlyFromBytes (parseSigned (iBound 64)) .convertionToString .convertionToInt

/-- Model of `<i128 as FromMultiPartPart>::from_bytes`. -/
def i128FromBytes : List Nat → Except DeserializeIntError Int :=
  stringlyFromBytes (parseSigned (iBound 128)) .convertionToString .convertionToInt

/-- Model of `<bool as FromMultiPartPart>::from_bytes`. -/
def boolFromBytes : List Nat → Except DeserializeBoolError Bool :=
  stringlyFromBytes parseRustBool .convertionToString .convertionToFloat

/-- Model of `<char as FromMultiPartPart>::from_bytes`. -/
def charFromBytes : List Nat → Except DeserializeCharError Char :=
  stringlyFromBytes parseRustChar .convertionToString .convertionToChar

/-- Model of `<f32 as FromMultiPartPart>::from_bytes`. -/
def f32FromBytes : List Nat → Except DeserializeFloatError RustFloatVal :=
  stringlyFromBytes parseRustFloat .convertionToString .convertionToFloat

/-- Model of `<f64 as FromMultiPartPart>::from_bytes`. -/
def f64FromBytes : List Nat → Except DeserializeFloatError RustFloatVal :=
  stringlyFromBytes parseRustFloat .convertionToString .convertionToFloat

/-- Model of `<&[u8] as FromMultiPartPart>::from_bytes` and
`<Vec<u8> as FromMultiPartPart>::from_bytes` (both the identity; their
error type is `Infallible`). -/
def bytesFromBytes (body : List Nat) : Except Empty (List Nat) :=
  .ok body

/-! ## Model of `poem::Error` and the absent-value policy -/

/-- Model of `poem::Error` as observed by a client: an HTTP status code and
the human-readable message rendered from the wrapped error's `Display`. -/
structure PoemError where
  status : Nat
  message : String
deriving DecidableEq

/-- Model of `poem::error::BadRequest(err)`: an error with status 400
carrying `err`'s rendered message. -/
def badRequest (msg : String) : PoemError :=
  ⟨400, msg⟩

/-- The `Display` text of `part.rs`'s `ValueNotFoundError(key)`:
`"The field `{0}` was not found in the request"`. -/
def valueNotFoundMessage (key : String) : String :=
  "The field `" ++ key ++ "` was not found in the request"

/-- Model of the default `FromMultiPartPart::handle_absent_value`:
`Err(poem::error::BadRequest(ValueNotFoundError(key.to_string())))`. -/
def defaultHandleAbsent (V : Type) (key : String) : Except PoemError V :=
  .error (badRequest (valueNotFoundMessage key))

/-- One `FromMultiPartPart` implementation, packaged for the generic
`MultiPartMap::get`: the `from_bytes` conversion with its error already
rendered through `Display` (which is the only way `get`'s caller can
observe it, via `BadRequest`), and the `handle_absent_value` policy. -/
structure Conv (V : Type) where
  fromBytes : List Nat → Except String V
  handleAbsent : String → Except PoemError V

/-- Package a typed `from_bytes` with its message rendering and the default
absent-value policy (every implementation in `part.rs` except `Option<T>`
keeps the default). -/
def mkConv {V ε : Type} (fb : List Nat → Except ε V) (msg : ε → String) :
    Conv V :=
  ⟨fun body => (fb body).mapError msg, defaultHandleAbsent V⟩

/-- The `String` implementation, packaged. -/
def stringConv : Conv (List Char) :=
  mkConv stringFromBytes FromUtf8Error.message

/-- The `u8` implementation, packaged. -/
def u8Conv : Conv Nat := mkConv u8FromBytes DeserializeIntError.message

/-- The `u16` implementation, packaged. -/
def u16Conv : Conv Nat := mkConv u16FromBytes DeserializeIntError.message

/-- The `u32` implementation, packaged. -/
def u32Conv : Conv Nat := mkConv u32FromBytes DeserializeIntError.message

/-- The `u64` implementation, packaged. -/
def u64Conv : Conv Nat := mkConv u64FromBytes DeserializeIntError.message

/-- The `u128` implementation, packaged. -/
def u128Conv : Conv Nat := mkConv u128FromBytes DeserializeIntError.message

/-- The `i8` implementation, packaged. -/
def i8Conv : Conv Int := mkConv i8FromBytes DeserializeIntError.message

/-- The `i16` implementation, packaged. -/
def i16Conv : Conv Int := mkConv i16FromBytes DeserializeIntError.message

/-- The `i32` implementation, packaged. -/
def i32Conv : Conv Int := mkConv i32FromBytes DeserializeIntError.message

/-- The `i64` implementation, packaged. -/
def i64Conv : Conv Int := mkConv i64FromBytes DeserializeIntError.message

/-- The `i128` implementation, packaged. -/
def i128Conv : Conv Int := mkConv i128FromBytes DeserializeIntError.message

/-- The `bool` implementation, packaged. -/
def boolConv : Conv Bool := mkConv boolFromBytes DeserializeBoolError.message

/-- The `char` implementation, packaged. -/
def charConv : Conv Char := mkConv charFromBytes DeserializeCharError.message

/-- The `f32` implementation, packaged. -/
def f32Conv : Conv RustFloatVal :=
  mkConv f32FromBytes DeserializeFloatError.message

/-- The `f64` implementation, packaged. -/
def f64Conv : Conv RustFloatVal :=
  mkConv f64FromBytes DeserializeFloatError.message

/-- The `&[u8]` / `Vec<u8>` implementation, packaged (infallible). -/
def bytesConv : Conv (List Nat) :=
  mkConv bytesFromBytes (fun e => nomatch e)

/-- Model of `impl FromMultiPartPart for Option<T>`: `from_bytes` defers to
the inner implementation and wraps in `Some`; `handle_absent_value`
succeeds with `None`. -/
def optionConv {V : Type} (inner : Conv V) : Conv (Option V) :=
  ⟨fun body => (inner.fromBytes body).map some, fun _ => .ok none⟩

/-! ## `src/map.rs`: the field map -/

/-- Model of `map.rs`'s `MultiPartMapError<E>` (single variant
`DecodeError(String, E)`), with the source error rendered. This enum is
declared in the source but never constructed by `MultiPartMap::get`. -/
structure MultiPartMapError where
  fieldName : String
  sourceMessage : String
deriving DecidableEq

/-- The `Display` text of `DecodeError`:
`"Failed to decode field `{0}`: {1:}"`. -/
def MultiPartMapError.message (e : MultiPartMapError) : String :=
  "Failed to decode field `" ++ e.fieldName ++ "`: " ++ e.sourceMessage

/-- Model of `impl poem::error::ResponseError for MultiPartMapError`:
`status` always returns `StatusCode::BAD_REQUEST`. -/
def MultiPartMapError.status (_ : MultiPartMapError) : Nat :=
  400

/-- Model of `MultiPartMap`: a `HashMap<String, Vec<u8>>`, observed purely
through lookup. -/
structure MultiPartMap where
  find : String → Option (List Nat)

/-- Model of `HashMap::insert` (overwrites any previous binding). -/
def MultiPartMap.insert (m : MultiPartMap) (k : String) (v : List Nat) :
    MultiPartMap :=
  ⟨fun k' => if k' = k then some v else m.find k'⟩

/-- The empty map (`HashMap::new`). -/
def MultiPartMap.empty : MultiPartMap :=
  ⟨fun _ => none⟩

/-- Model of one field yielded by `poem::web::Multipart::next_field`: its
optional name, and the result of `field.bytes().await` should the bytes be
read. -/
structure MultiField where
  name : Option String
  value : Except Nat (List Nat)

/-- One iteration's input in `MultiPartMap::new`: the result of
`body.next_field().await`. The end of the event list models
`Ok(None)`; errors are identified by an opaque code (`Nat`). -/
abbrev FieldEvent := Except Nat MultiField

/-- The loop of `MultiPartMap::new`:
`while let Ok(Some(field)) = body.next_field().await`. An `Err` from
`next_field` fails the `while let` pattern, so the loop exits and the map
built so far is returned in `Ok`. An unnamed field hits the
`None => continue` arm before its bytes are ever read. For a named field,
`field.bytes().await?` propagates a read failure out of `new`; on success
the bytes are inserted (so a repeated name overwrites). -/
def MultiPartMap.newGo : List FieldEvent → MultiPartMap →
    Except Nat MultiPartMap
  | [], m => .ok m
  | .error _ :: _, m => .ok m
  | .ok f :: rest, m =>
    match f.name with
    | none => MultiPartMap.newGo rest m
    | some n =>
      match f.value with
      | .error e => .error e
      | .ok v => MultiPartMap.newGo rest (m.insert n v)

/-- Model of `MultiPartMap::new`, draining the body's field events into a
fresh map. -/
def MultiPartMap.new (events : List FieldEvent) : Except Nat MultiPartMap :=
  MultiPartMap.newGo events MultiPartMap.empty

/-- Model of `MultiPartMap::get`: on a present key, run the conversion and
wrap any failure in `poem::error::BadRequest`; on an absent key, defer to
the type's absent-value policy. -/
def MultiPartMap.get {V : Type} (m : MultiPartMap) (c : Conv V)
    (key : String) : Except PoemError V :=
  match m.find key with
  | some v =>
    match c.fromBytes v with
    | .ok a => .ok a
    | .error e => .error (badRequest e)
  | none => c.handleAbsent key

/-! ## `src/poem-typed-multipart-macro/src/lib.rs`: the code generator

The macro's `generate` walks a `DeriveInput` syntax tree; the model keeps
exactly the data `generate` inspects: whether the input is an enum or a
struct, and for each struct field its optional identifier and optional
`#[multipart(rename = …)]` value. The observable output of `generate` is
the emitted `decode` body — one `let #ident = map.get(#name)?;` per field,
in declaration order, followed by `Ok(Self { … })` — so the model returns
the ordered list of `(ident, lookup key)` pairs driving those calls. -/

/-- One struct field as `darling`'s `FromMultiPartData` sees it. -/
structure FieldDef where
  ident : Option String
  rename : Option String

/-- The shape of the derive target (`darling`'s `Data<Ignored, _>`). -/
inductive DeriveData where
  | enumData
  | structData (fields : List FieldDef)

/-- The derive input: the type's identifier and its data shape. -/
structure DeriveInput where
  ident : String
  data : DeriveData

/-- The two generation-time failures `generate` can raise, with their span
messages. -/
inductive GeneratorError where
  | enumNotSupported
  | tupleStruct
deriving DecidableEq

def GeneratorError.message : GeneratorError → String
  | .enumNotSupported => "FromMultiPart can only be applied to an struct."
  | .tupleStruct => "FromMultiPart does not work for tuple structs."

/-- The field loop of `generate`: for each field, fail on a missing
identifier (tuple struct), otherwise pair the identifier with
`field_data.rename.unwrap_or_else(|| ident.to_string())`. The `?` inside
the `for` loop stops at the first failure. -/
def generateFields : List FieldDef → Except GeneratorError (List (String × String))
  | [] => .ok []
  | fd :: rest =>
    match fd.ident with
    | none => .error .tupleStruct
    | some id =>
      match generateFields rest with
      | .error e => .error e
      | .ok pairs => .ok ((id, fd.rename.getD id) :: pairs)

/-- Model of the macro's `generate`: reject enums, then run the field loop.
The result is the ordered `(ident, key)` list of the emitted
`map.get` calls. -/
def generate (args : DeriveInput) : Except GeneratorError (List (String × String)) :=
  match args.data with
  | .enumData => .error .enumNotSupported
  | .structData fields => generateFields fields

/-- One field of a record, as the emitted decoder sees it: its target type,
its lookup key (identifier or rename) and the `FromMultiPartPart`
implementation the emitted `map.get` call dispatches to. -/
structure FieldSpec : Type 1 where
  V : Type
  key : String
  conv : Conv V

/-- The tuple of field values a record with the given field specs holds. -/
def FieldsTy : List FieldSpec → Type
  | [] => PUnit
  | s :: rest => s.V × FieldsTy rest

/-- Semantics of the emitted `decode` body for a record with the given
fields (in declaration order): `let x_i = map.get(key_i)?;` one after
another, then the record — here the tuple of bound values — is assembled.
The first failing `get` leaves via `?` before any later field is
attempted. -/
def decodeFields : (fs : List FieldSpec) → MultiPartMap →
    Except PoemError (FieldsTy fs)
  | [], _ => .ok ⟨⟩
  | s :: rest, m =>
    match m.get s.conv s.key with
    | .error e => .error e
    | .ok v =>
      match decodeFields rest m with
      | .error e => .error e
      | .ok vs => .ok (v, vs)

/-- The spec's running example record `{ id: u32, title: String }`. -/
structure Body where
  id : Nat
  title : List Char
deriving DecidableEq

/-- The `FromMultiPart::decode` the macro derives for `Body`:
`let id = map.get("id")?; let title = map.get("title")?;
Ok(Self { id, title })`. -/
def Body.decode (m : MultiPartMap) : Except PoemError Body :=
  match m.get u32Conv "id" with
  | .error e => .error e
  | .ok id =>
    match m.get stringConv "title" with
    | .error e => .error e
    | .ok title => .ok ⟨id, title⟩

/-! ## Helpers for stating the properties -/

/-- Whether `needle` occurs as a contiguous substring of `hay` (used to
state that an error message does or does not name a field). -/
def listContains (hay needle : List Char) : Bool :=
  match hay with
  | [] => needle = []
  | _ :: t => needle.isPrefixOf hay || listContains t needle

/-- Substring occurrence on `String`. -/
def strContains (hay needle : String) : Bool :=
  listContains hay.toList needle.toList

/-- Digit loop for `natToChars`, structurally recursive on a fuel argument
(the starting number itself is always enough fuel, since a number has no
more decimal digits than its own value). -/
def natToCharsAux : Nat → Nat → List Char
  | _, 0 => []
  | 0, _ + 1 => []
  | fuel + 1, n + 1 =>
    natToCharsAux fuel ((n + 1) / 10) ++ [Char.ofNat (48 + (n + 1) % 10)]

/-- The decimal rendering of a `Nat` (model of Rust's `Display` for the
unsigned integers, used to state the round-trip property). -/
def natToChars (n : Nat) : List Char :=
  if n = 0 then ['0'] else natToCharsAux n n

/-- Model of Rust's `Display` for the signed integers: a `-` sign in front
of the magnitude's decimal rendering for negative values, the plain
decimal rendering otherwise. -/
def intToChars (v : Int) : List Char :=
  if v < 0 then '-' :: natToChars v.natAbs else natToChars v.natAbs

/-- Model of Rust's `Display` for `bool`: `"true"` / `"false"`. -/
def boolToChars : Bool → List Char
  | true => ['t', 'r', 'u', 'e']
  | false => ['f', 'a', 'l', 's', 'e']

/-- The exponent suffix digits of a float literal: a `-` sign in front of
the magnitude for negative exponents. -/
def expToChars (e : Int) : List Char :=
  if e < 0 then '-' :: natToChars e.natAbs else natToChars e.natAbs

/-- A textual representation of a parsed float value, used to state the
float round-trip. For the special values this is Rust's `Display` output
(`NaN`, `inf`, `-inf`); a finite value — modelled as the exact decimal
`± mantissa × 10 ^ exp10` (see `RustFloatVal`) — is rendered as the
scientific literal denoting exactly that decimal. Rust's `Display` for an
IEEE float prints a decimal-point form chosen through the float's binary
value, which is outside this embedding's float model; the scientific
literal is the textual representation of the model value itself, and
parsing it back reproduces the value exactly. -/
def floatToChars : RustFloatVal → List Char
  | .nan => ['N', 'a', 'N']
  | .inf false => ['i', 'n', 'f']
  | .inf true => ['-', 'i', 'n', 'f']
  | .finite neg m e =>
    (if neg then ['-'] else []) ++ natToChars m ++ 'e' :: expToChars e

/-- The bytes of the last part in `parts` carrying name `k`, if any: the
reference answer for map construction (a later occurrence shadows every
earlier one; unnamed parts never match). -/
def lastNamed : List (Option String × List Nat) → String → Option (List Nat)
  | [], _ => none
  | (n, v) :: rest, k =>
    match lastNamed rest k with
    | some w => some w
    | none => if n = some k then some v else none

/-- Wrap plain `(name, bytes)` parts as fully successful field events. -/
def okEvents (parts : List (Option String × List Nat)) : List FieldEvent :=
  parts.map (fun p => .ok ⟨p.1, .ok p.2⟩)


theorem utf8DecodeOne_length {l : List Nat} {c : Char} {rest' : List Nat}
    (h : utf8DecodeOne l = some (c, rest')) : rest'.length < l.length := by
  match l with
  | [] => simp [utf8DecodeOne] at h
  | b :: rest =>
    simp only [utf8DecodeOne] at h
    repeat' split at h
    all_goals simp_all
    all_goals omega

theorem utf8DecodeAux_fuel (f : Nat) (l : List Nat) (h : l.length ≤ f) :
    utf8DecodeAux f l = utf8DecodeAux l.length l := by
  induction f using Nat.strong_induction_on generalizing l with
  | _ f ih =>
    match f, l with
    | x, [] => simp [utf8DecodeAux]
    | 0, b :: rest => simp at h
    | g + 1, b :: rest =>
      simp only [utf8DecodeAux, List.length_cons]
      cases hone : utf8DecodeOne (b :: rest) with
      | none => rfl
      | some p =>
        obtain ⟨c, rest'⟩ := p
        have hlt := utf8DecodeOne_length hone
        simp only [List.length_cons] at hlt h
        dsimp only
        rw [ih g (by omega) rest' (by omega),
          ih rest.length (by omega) rest' (by omega)]

theorem utf8DecodeOne_encodeChar (c : Char) (l : List Nat) :
    utf8DecodeOne (utf8EncodeChar c ++ l) = some (c, l) := by
  have hofn : Char.ofNat c.toNat = c := Char.ofNat_toNat c
  have hv : c.toNat < 0xD800 ∨ (0xE000 ≤ c.toNat ∧ c.toNat < 0x110000) :=
    c.valid
  rcases Nat.lt_or_ge c.toNat 0x80 with h1 | h1
  · have he : utf8EncodeChar c = [c.toNat] := by
      simp only [utf8EncodeChar]
      rw [if_pos h1]
    rw [he]
    show utf8DecodeOne (c.toNat :: l) = _
    simp only [utf8DecodeOne]
    rw [if_pos h1, hofn]
  rcases Nat.lt_or_ge c.toNat 0x800 with h2 | h2
  · have hn1 : ¬ c.toNat < 0x80 := by omega
    have he : utf8EncodeChar c =
        [0xC0 + c.toNat / 64, 0x80 + c.toNat % 64] := by
      simp only [utf8EncodeChar]
      rw [if_neg hn1, if_pos h2]
    rw [he]
    show utf8DecodeOne
      ((0xC0 + c.toNat / 64) :: (0x80 + c.toNat % 64) :: l) = _
    simp only [utf8DecodeOne]
    have d1 : ¬ 0xC0 + c.toNat / 64 < 0x80 := by omega
    have d2 : ¬ 0xC0 + c.toNat / 64 < 0xC2 := by omega
    have d3 : 0xC0 + c.toNat / 64 < 0xE0 := by omega
    rw [if_neg d1, if_neg d2, if_pos d3]
    have hc : isCont (0x80 + c.toNat % 64) = true := by
      simp only [isCont, Bool.and_eq_true, decide_eq_true_eq]
      omega
    rw [if_pos hc]
    have harg : (0xC0 + c.toNat / 64 - 0xC0) * 64 +
        (0x80 + c.toNat % 64 - 0x80) = c.toNat := by
      simp only [Nat.add_sub_cancel_left]
      omega
    rw [harg, hofn]
  rcases Nat.lt_or_ge c.toNat 0x10000 with h3 | h3
  · have hn1 : ¬ c.toNat < 0x80 := by omega
    have hn2 : ¬ c.toNat < 0x800 := by omega
    have he : utf8EncodeChar c =
        [0xE0 + c.toNat / 4096, 0x80 + c.toNat / 64 % 64,
          0x80 + c.toNat % 64] := by
      simp only [utf8EncodeChar]
      rw [if_neg hn1, if_neg hn2, if_pos h3]
    rw [he]
    show utf8DecodeOne ((0xE0 + c.toNat / 4096) ::
      (0x80 + c.toNat / 64 % 64) :: (0x80 + c.toNat % 64) :: l) = _
    simp only [utf8DecodeOne]
    have d1 : ¬ 0xE0 + c.toNat / 4096 < 0x80 := by omega
    have d2 : ¬ 0xE0 + c.toNat / 4096 < 0xC2 := by omega
    have d3 : ¬ 0xE0 + c.toNat / 4096 < 0xE0 := by omega
    have d4 : 0xE0 + c.toNat / 4096 < 0xF0 := by omega
    rw [if_neg d1, if_neg d2, if_neg d3, if_pos d4]
    have hc : (isCont (0x80 + c.toNat / 64 % 64) &&
        isCont (0x80 + c.toNat % 64)) = true := by
      simp only [isCont, Bool.and_eq_true, decide_eq_true_eq]
      omega
    rw [if_pos hc]
    have hdd : c.toNat / 64 / 64 = c.toNat / 4096 := by
      rw [Nat.div_div_eq_div_mul]
    have harg : (0xE0 + c.toNat / 4096 - 0xE0) * 4096 +
        (0x80 + c.toNat / 64 % 64 - 0x80) * 64 +
        (0x80 + c.toNat % 64 - 0x80) = c.toNat := by
      simp only [Nat.add_sub_cancel_left]
      omega
    rw [harg]
    have hok : (0x800 ≤ c.toNat &&
        !(0xD800 ≤ c.toNat && c.toNat < 0xE000)) = true := by
      simp only [Bool.and_eq_true, Bool.not_eq_true', Bool.and_eq_false_iff,
        decide_eq_true_eq, decide_eq_false_iff_not]
      omega
    rw [if_pos hok, hofn]
  · have hn1 : ¬ c.toNat < 0x80 := by omega
    have hn2 : ¬ c.toNat < 0x800 := by omega
    have hn3 : ¬ c.toNat < 0x10000 := by omega
    have h4 : c.toNat < 0x110000 := by omega
    have he : utf8EncodeChar c =
        [0xF0 + c.toNat / 262144, 0x80 + c.toNat / 4096 % 64,
          0x80 + c.toNat / 64 % 64, 0x80 + c.toNat % 64] := by
      simp only [utf8EncodeChar]
      rw [if_neg hn1, if_neg hn2, if_neg hn3]
    rw [he]
    show utf8DecodeOne ((0xF0 + c.toNat / 262144) ::
      (0x80 + c.toNat / 4096 % 64) :: (0x80 + c.toNat / 64 % 64) ::
      (0x80 + c.toNat % 64) :: l) = _
    simp only [utf8DecodeOne]
    have d1 : ¬ 0xF0 + c.toNat / 262144 < 0x80 := by omega
    have d2 : ¬ 0xF0 + c.toNat / 262144 < 0xC2 := by omega
    have d3 : ¬ 0xF0 + c.toNat / 262144 < 0xE0 := by omega
    have d4 : ¬ 0xF0 + c.toNat / 262144 < 0xF0 := by omega
    have d5 : 0xF0 + c.toNat / 262144 < 0xF5 := by omega
    rw [if_neg d1, if_neg d2, if_neg d3, if_neg d4, if_pos d5]
    have hc : (isCont (0x80 + c.toNat / 4096 % 64) &&
        isCont (0x80 + c.toNat / 64 % 64) &&
        isCont (0x80 + c.toNat % 64)) = true := by
      simp only [isCont, Bool.and_eq_true, decide_eq_true_eq]
      omega
    rw [if_pos hc]
    have hdd1 : c.toNat / 64 / 64 = c.toNat / 4096 := by
      rw [Nat.div_div_eq_div_mul]
    have hdd2 : c.toNat / 4096 / 64 = c.toNat / 262144 := by
      rw [Nat.div_div_eq_div_mul]
    have harg : (0xF0 + c.toNat / 262144 - 0xF0) * 262144 +
        (0x80 + c.toNat / 4096 % 64 - 0x80) * 4096 +
        (0x80 + c.toNat / 64 % 64 - 0x80) * 64 +
        (0x80 + c.toNat % 64 - 0x80) = c.toNat := by
      simp only [Nat.add_sub_cancel_left]
      omega
    rw [harg]
    have hok : (0x10000 ≤ c.toNat && c.toNat < 0x110000) = true := by
      simp only [Bool.and_eq_true, decide_eq_true_eq]
      omega
    rw [if_pos hok, hofn]

theorem utf8EncodeChar_length_pos (c : Char) :
    1 ≤ (utf8EncodeChar c).length := by
  simp only [utf8EncodeChar]
  repeat' split
  all_goals simp

theorem utf8Decode_encodeChar (c : Char) (l : List Nat) :
    utf8Decode (utf8EncodeChar c ++ l) =
      (utf8Decode l).map (fun cs => c :: cs) := by
  have hpos := utf8EncodeChar_length_pos c
  unfold utf8Decode
  cases he : utf8EncodeChar c ++ l with
  | nil =>
    exfalso
    have h0 : (utf8EncodeChar c).length + l.length = 0 := by
      rw [← List.length_append, he]
      rfl
    omega
  | cons b rest =>
    have hlen : (b :: rest).length = (utf8EncodeChar c).length + l.length := by
      rw [← he]
      simp
    rw [hlen]
    have hstep : (utf8EncodeChar c).length + l.length =
        ((utf8EncodeChar c).length - 1 + l.length) + 1 := by omega
    rw [hstep]
    show (match utf8DecodeOne (b :: rest) with
      | none => none
      | some (c', rest') =>
        (utf8DecodeAux ((utf8EncodeChar c).length - 1 + l.length) rest').map
          (fun cs => c' :: cs)) = _
    rw [← he, utf8DecodeOne_encodeChar]
    dsimp only
    rw [utf8DecodeAux_fuel _ l (by omega)]

theorem utf8Decode_encode (s : List Char) :
    utf8Decode (utf8Encode s) = some s := by
  induction s with
  | nil => rfl
  | cons c cs ih =>
    show utf8Decode (utf8EncodeChar c ++ utf8Encode cs) = _
    rw [utf8Decode_encodeChar, ih]
    rfl

theorem stringFromBytes_encode (s : List Char) :
    stringFromBytes (utf8Encode s) = .ok s := by
  unfold stringFromBytes
  rw [utf8Decode_encode]

theorem parseDigitsGo_append (bound : Nat) (xs ys : List Char) (acc : Nat) :
    parseDigitsGo bound (xs ++ ys) acc =
      match parseDigitsGo bound xs acc with
      | .ok a => parseDigitsGo bound ys a
      | .error e => .error e := by
  induction xs generalizing acc with
  | nil => rfl
  | cons c rest ih =>
    simp only [List.cons_append, parseDigitsGo]
    cases digitVal c with
    | none => rfl
    | some d =>
      dsimp only
      by_cases hb : bound ≤ acc * 10 + d
      · rw [if_pos hb, if_pos hb]
      · rw [if_neg hb, if_neg hb]
        exact ih _

theorem natToCharsAux_fuel (f n : Nat) (h : n ≤ f) :
    natToCharsAux f n = natToCharsAux n n := by
  induction f using Nat.strong_induction_on generalizing n with
  | _ f ih =>
    match f, n with
    | x, 0 => cases x <;> rfl
    | 0, m + 1 => exact absurd h (by omega)
    | g + 1, m + 1 =>
      show natToCharsAux g ((m + 1) / 10) ++ _ =
        natToCharsAux m ((m + 1) / 10) ++ _
      have hd : (m + 1) / 10 ≤ m := by omega
      rw [ih g (by omega) _ (by omega), ih m (by omega) _ hd]

theorem natToCharsAux_ne_nil (m : Nat) : natToCharsAux (m + 1) (m + 1) ≠ [] := by
  show natToCharsAux m ((m + 1) / 10) ++ _ ≠ []
  simp

theorem digitVal_ofNat : ∀ d < 10, digitVal (Char.ofNat (48 + d)) = some d := by
  decide

theorem parseDigitsGo_natToCharsAux (bound : Nat) :
    ∀ n, n < bound → parseDigitsGo bound (natToCharsAux n n) 0 = .ok n := by
  intro n
  induction n using Nat.strong_induction_on with
  | _ n ih =>
    intro h
    match n with
    | 0 => rfl
    | m + 1 =>
      have hsplit : natToCharsAux (m + 1) (m + 1) =
          natToCharsAux ((m + 1) / 10) ((m + 1) / 10) ++
            [Char.ofNat (48 + (m + 1) % 10)] := by
        show natToCharsAux m ((m + 1) / 10) ++ _ = _
        rw [natToCharsAux_fuel m ((m + 1) / 10) (by omega)]
      rw [hsplit, parseDigitsGo_append,
        ih ((m + 1) / 10) (by omega) (by omega)]
      dsimp only
      simp only [parseDigitsGo]
      rw [digitVal_ofNat ((m + 1) % 10) (by omega)]
      dsimp only
      have hv : (m + 1) / 10 * 10 + (m + 1) % 10 = m + 1 := by omega
      rw [if_neg (by omega), hv]

theorem parseDigitsGo_head_digit {bound : Nat} {c : Char} {rest : List Char}
    {acc v : Nat} (h : parseDigitsGo bound (c :: rest) acc = .ok v) :
    digitVal c ≠ none := by
  intro hd
  simp only [parseDigitsGo, hd] at h
  exact Except.noConfusion h

/-- Rust's decimal rendering of an in-range unsigned value parses back to
exactly that value (no sign, no leading zeros, never overflowing). -/
theorem parseUnsigned_natToChars (bound n : Nat) (h : n < bound) :
    parseUnsigned bound (natToChars n) = .ok n := by
  match n with
  | 0 =>
    have h1 : (0 : Nat) < bound := h
    show parseUnsigned bound ['0'] = .ok 0
    simp only [parseUnsigned]
    rw [if_neg (by decide), if_neg (by decide)]
    simp only [parseDigitsGo]
    rw [show digitVal '0' = some 0 from by decide]
    dsimp only
    rw [if_neg (by omega)]
  | m + 1 =>
    have hC := parseDigitsGo_natToCharsAux bound (m + 1) h
    obtain ⟨c, rest, hcr⟩ :
        ∃ c rest, natToCharsAux (m + 1) (m + 1) = c :: rest := by
      cases hx : natToCharsAux (m + 1) (m + 1) with
      | nil => exact absurd hx (natToCharsAux_ne_nil m)
      | cons c rest => exact ⟨c, rest, rfl⟩
    have hnat : natToChars (m + 1) = c :: rest := by
      simp only [natToChars]
      rw [if_neg (Nat.succ_ne_zero m)]
      exact hcr
    rw [hcr] at hC
    have hdig := parseDigitsGo_head_digit hC
    have hplus : ¬ c = '+' := by
      intro hEq
      rw [hEq] at hdig
      exact hdig (by decide)
    have hminus : ¬ c = '-' := by
      intro hEq
      rw [hEq] at hdig
      exact hdig (by decide)
    rw [hnat]
    simp only [parseUnsigned]
    rw [if_neg hplus, if_neg hminus]
    exact hC

/-- `u32::from_bytes` round-trips on the UTF-8 decimal rendering of any
in-range value. -/
theorem u32FromBytes_encode_natToChars (n : Nat) (h : n < uBound 32) :
    u32FromBytes (utf8Encode (natToChars n)) = .ok n := by
  unfold u32FromBytes stringlyFromBytes
  rw [stringFromBytes_encode]
  dsimp only
  rw [parseUnsigned_natToChars (uBound 32) n h]

/-- On an absent key, `get` defers to the absent-value policy. -/
theorem get_absent {V : Type} (c : Conv V) (m : MultiPartMap) (key : String)
    (h : m.find key = none) : m.get c key = c.handleAbsent key := by
  unfold MultiPartMap.get
  rw [h]

/-- The staged-conversion contract of every `impl_stringly_types!`
implementation: on each payload either both stages succeed and the result
is the parse of the UTF-8 decoding, or the UTF-8 stage fails and the error
carries the UTF-8 tag, or the parse stage fails and the error carries the
parse tag. -/
def StagedPipeline {α ε π : Type} (fromBytes : List Nat → Except ε α)
    (parse : List Char → Except π α) (fromUtf8 : FromUtf8Error → ε)
    (fromParse : π → ε) : Prop :=
  ∀ p : List Nat,
    (∃ s v, stringFromBytes p = .ok s ∧ parse s = .ok v ∧
      fromBytes p = .ok v) ∨
    (∃ e, stringFromBytes p = .error e ∧
      fromBytes p = .error (fromUtf8 e)) ∨
    (∃ s e, stringFromBytes p = .ok s ∧ parse s = .error e ∧
      fromBytes p = .error (fromParse e))

theorem stringlyFromBytes_staged {α ε π : Type}
    (parse : List Char → Except π α) (fromUtf8 : FromUtf8Error → ε)
    (fromParse : π → ε) :
    StagedPipeline (stringlyFromBytes parse fromUtf8 fromParse) parse
      fromUtf8 fromParse := by
  intro p
  unfold stringlyFromBytes
  cases hs : stringFromBytes p with
  | error e => exact .inr (.inl ⟨e, rfl, rfl⟩)
  | ok s =>
    cases hp : parse s with
    | error e => exact .inr (.inr ⟨s, e, rfl, hp, by simp only [hp]⟩)
    | ok v => exact .inl ⟨s, v, rfl, hp, by simp only [hp]⟩

/-- A converter whose absent-value policy only ever produces 400-status
errors. -/
def absentPolicyClientOnly {V : Type} (c : Conv V) : Prop :=
  ∀ k e, c.handleAbsent k = .error e → e.status = 400

theorem mkConv_absentPolicyClientOnly {V ε : Type}
    (fb : List Nat → Except ε V) (msg : ε → String) :
    absentPolicyClientOnly (mkConv fb msg) := by
  intro k e h
  unfold mkConv defaultHandleAbsent at h
  injection h with h'
  rw [← h']
  rfl

theorem optionConv_absentPolicyClientOnly {V : Type} (c : Conv V) :
    absentPolicyClientOnly (optionConv c) := by
  intro k e h
  unfold optionConv at h
  exact Except.noConfusion h

theorem generateFields_ok {fields : List FieldDef}
    {pairs : List (String × String)} (h : generateFields fields = .ok pairs) :
    (∀ fd ∈ fields, fd.ident ≠ none) ∧
    pairs = fields.map (fun fd =>
      ((fd.ident).getD "", (fd.rename).getD ((fd.ident).getD ""))) := by
  induction fields generalizing pairs with
  | nil =>
    cases h
    exact ⟨fun fd hfd => absurd hfd (List.not_mem_nil fd), rfl⟩
  | cons fd rest ih =>
    simp only [generateFields] at h
    cases hid : fd.ident with
    | none =>
      rw [hid] at h
      exact Except.noConfusion h
    | some id =>
      rw [hid] at h
      dsimp only at h
      cases hr : generateFields rest with
      | error e2 =>
        rw [hr] at h
        exact Except.noConfusion h
      | ok ps =>
        rw [hr] at h
        dsimp only at h
        injection h with h'
        obtain ⟨ha, hb⟩ := ih hr
        constructor
        · intro fd' hfd'
          rcases List.mem_cons.mp hfd' with rfl | hm
          · rw [hid]
            exact Option.noConfusion
          · exact ha fd' hm
        · rw [← h', hb]
          simp [hid]

theorem generateFields_unnamed {fields : List FieldDef}
    (h : ∃ fd ∈ fields, fd.ident = none) :
    generateFields fields = .error .tupleStruct := by
  induction fields with
  | nil =>
    obtain ⟨fd, hm, _⟩ := h
    exact absurd hm (List.not_mem_nil fd)
  | cons g rest ih =>
    obtain ⟨fd, hm, hid⟩ := h
    simp only [generateFields]
    cases hgid : g.ident with
    | none => rfl
    | some id =>
      dsimp only
      have hrest : ∃ fd ∈ rest, fd.ident = none := by
        rcases List.mem_cons.mp hm with rfl | hm'
        · rw [hgid] at hid
          exact Option.noConfusion hid
        · exact ⟨fd, hm', hid⟩
      rw [ih hrest]

theorem generateFields_all_named {fields : List FieldDef}
    (h : ∀ fd ∈ fields, fd.ident ≠ none) :
    ∃ pairs, generateFields fields = .ok pairs := by
  induction fields with
  | nil => exact ⟨[], rfl⟩
  | cons g rest ih =>
    obtain ⟨ps, hps⟩ := ih (fun fd hfd => h fd (List.mem_cons_of_mem g hfd))
    have hg := h g (List.mem_cons_self g rest)
    cases hgid : g.ident with
    | none => exact absurd hgid hg
    | some id =>
      refine ⟨(id, (g.rename).getD id) :: ps, ?_⟩
      simp only [generateFields, hgid, hps]

theorem newGo_okEvents (parts : List (Option String × List Nat))
    (acc : MultiPartMap) :
    ∃ m, MultiPartMap.newGo (okEvents parts) acc = .ok m ∧
      ∀ k, m.find k = match lastNamed parts k with
        | some w => some w
        | none => acc.find k := by
  induction parts generalizing acc with
  | nil => exact ⟨acc, rfl, fun k => rfl⟩
  | cons p rest ih =>
    obtain ⟨n, v⟩ := p
    cases n with
    | none =>
      obtain ⟨m, hm, hf⟩ := ih acc
      refine ⟨m, hm, fun k => ?_⟩
      rw [hf k]
      cases hl : lastNamed rest k <;> simp [lastNamed, hl]
    | some name =>
      obtain ⟨m, hm, hf⟩ := ih (acc.insert name v)
      refine ⟨m, hm, fun k => ?_⟩
      rw [hf k]
      cases hl : lastNamed rest k with
      | some w => simp [lastNamed, hl]
      | none =>
        simp only [lastNamed, hl]
        unfold MultiPartMap.insert
        by_cases hk : k = name
        · subst hk
          simp
        · have hne : ¬ (some name = some k) := by
            intro hEq
            injection hEq with hEq'
            exact hk hEq'.symm
          simp [hk, hne]

theorem newGo_fetch_error (l1 : List FieldEvent) (e : Nat)
    (l2 : List FieldEvent) (acc : MultiPartMap) :
    MultiPartMap.newGo (l1 ++ .error e :: l2) acc =
      MultiPartMap.newGo l1 acc := by
  induction l1 generalizing acc with
  | nil => rfl
  | cons ev rest ih =>
    cases ev with
    | error e2 => rfl
    | ok f =>
      simp only [List.cons_append, MultiPartMap.newGo]
      cases f.name with
      | none => exact ih acc
      | some n =>
        cases f.value with
        | error e2 => rfl
        | ok v => exact ih (acc.insert n v)

theorem newGo_error_source (events : List FieldEvent) (acc : MultiPartMap)
    (e : Nat) (h : MultiPartMap.newGo events acc = .error e) :
    ∃ l1 f l2, events = l1 ++ .ok f :: l2 ∧ f.name ≠ none ∧
      f.value = .error e := by
  induction events generalizing acc with
  | nil => exact Except.noConfusion h
  | cons ev rest ih =>
    cases ev with
    | error e2 => exact Except.noConfusion h
    | ok f =>
      simp only [MultiPartMap.newGo] at h
      cases hn : f.name with
      | none =>
        rw [hn] at h
        obtain ⟨l1, f', l2, hev, hname, hval⟩ := ih acc h
        exact ⟨.ok f :: l1, f', l2, by rw [hev, List.cons_append], hname, hval⟩
      | some n =>
        rw [hn] at h
        dsimp only at h
        cases hv : f.value with
        | error e2 =>
          rw [hv] at h
          injection h with h'
          refine ⟨[], f, rest, rfl, ?_, by rw [hv, h']⟩
          rw [hn]
          exact Option.noConfusion
        | ok v =>
          rw [hv] at h
          obtain ⟨l1, f', l2, hev, hname, hval⟩ := ih (acc.insert n v) h
          exact ⟨.ok f :: l1, f', l2, by rw [hev, List.cons_append], hname, hval⟩

theorem natToChars_ne_nil (n : Nat) : natToChars n ≠ [] := by
  match n with
  | 0 =>
    intro h
    exact List.noConfusion h
  | m + 1 =>
    simp only [natToChars, if_neg (Nat.succ_ne_zero m)]
    exact natToCharsAux_ne_nil m

theorem natToChars_split (m : Nat) :
    natToChars (m + 1) =
      natToCharsAux ((m + 1) / 10) ((m + 1) / 10) ++
        [Char.ofNat (48 + (m + 1) % 10)] := by
  simp only [natToChars, if_neg (Nat.succ_ne_zero m)]
  show natToCharsAux m ((m + 1) / 10) ++ _ = _
  rw [natToCharsAux_fuel m ((m + 1) / 10) (by omega)]

/-- Every character of a decimal rendering is a decimal digit character. -/
theorem natToChars_form (n : Nat) :
    ∀ c ∈ natToChars n, ∃ d, d < 10 ∧ c = Char.ofNat (48 + d) := by
  induction n using Nat.strong_induction_on with
  | _ n ih =>
    intro c hc
    match n with
    | 0 =>
      have h0 : natToChars 0 = ['0'] := rfl
      rw [h0] at hc
      rw [List.mem_singleton.mp hc]
      exact ⟨0, by omega, by decide⟩
    | m + 1 =>
      rw [natToChars_split m] at hc
      rcases List.mem_append.mp hc with h2 | h2
      · match hk : (m + 1) / 10 with
        | 0 =>
          rw [hk] at h2
          exact absurd h2 (List.not_mem_nil c)
        | k + 1 =>
          rw [hk] at h2
          have hkk : natToCharsAux (k + 1) (k + 1) = natToChars (k + 1) := by
            simp only [natToChars, if_neg (Nat.succ_ne_zero k)]
          rw [hkk] at h2
          exact ih (k + 1) (by omega) c h2
      · rw [List.mem_singleton.mp h2]
        exact ⟨(m + 1) % 10, by omega, rfl⟩

/-- Every character of a decimal rendering passes the digit test. -/
theorem natToChars_digit (n : Nat) :
    ∀ c ∈ natToChars n, (digitVal c).isSome = true := by
  intro c hc
  obtain ⟨d, hd, rfl⟩ := natToChars_form n c hc
  rw [digitVal_ofNat d hd]
  rfl

/-- The decimal digit characters are not signs, not letters of the float
words, not a decimal point, and fixed by ASCII lowercasing. -/
theorem digit_char_facts : ∀ d < 10,
    Char.ofNat (48 + d) ≠ '+' ∧ Char.ofNat (48 + d) ≠ '-' ∧
    Char.ofNat (48 + d) ≠ 'i' ∧ Char.ofNat (48 + d) ≠ 'n' ∧
    Char.ofNat (48 + d) ≠ '.' ∧
    asciiLower (Char.ofNat (48 + d)) = Char.ofNat (48 + d) := by
  decide

theorem parseDigitsGo_natToChars {bound n : Nat} (h : n < bound) :
    parseDigitsGo bound (natToChars n) 0 = .ok n := by
  match n with
  | 0 =>
    have h0 : natToChars 0 = ['0'] := rfl
    rw [h0]
    simp only [parseDigitsGo]
    rw [show digitVal '0' = some 0 from by decide]
    dsimp only
    rw [if_neg (by omega)]
  | m + 1 =>
    have h1 : natToChars (m + 1) = natToCharsAux (m + 1) (m + 1) := by
      simp only [natToChars, if_neg (Nat.succ_ne_zero m)]
    rw [h1]
    exact parseDigitsGo_natToCharsAux bound (m + 1) h

theorem digitsToNat_natToCharsAux (n : Nat) :
    digitsToNat (natToCharsAux n n) = n := by
  induction n using Nat.strong_induction_on with
  | _ n ih =>
    match n with
    | 0 => rfl
    | m + 1 =>
      have h1 : natToCharsAux (m + 1) (m + 1) =
          natToCharsAux ((m + 1) / 10) ((m + 1) / 10) ++
            [Char.ofNat (48 + (m + 1) % 10)] := by
        show natToCharsAux m ((m + 1) / 10) ++ _ = _
        rw [natToCharsAux_fuel m ((m + 1) / 10) (by omega)]
      rw [h1]
      unfold digitsToNat
      rw [List.foldl_append]
      show digitsToNat (natToCharsAux ((m + 1) / 10) ((m + 1) / 10)) * 10 +
        (digitVal (Char.ofNat (48 + (m + 1) % 10))).getD 0 = m + 1
      rw [ih ((m + 1) / 10) (by omega), digitVal_ofNat ((m + 1) % 10) (by omega)]
      show (m + 1) / 10 * 10 + (m + 1) % 10 = m + 1
      omega

theorem digitsToNat_natToChars (n : Nat) : digitsToNat (natToChars n) = n := by
  match n with
  | 0 => decide
  | m + 1 =>
    simp only [natToChars, if_neg (Nat.succ_ne_zero m)]
    exact digitsToNat_natToCharsAux (m + 1)

/-- `takeWhile`/`dropWhile` split a list at the first character failing the
test when everything before it passes. -/
theorem takeWhile_dropWhile_append {p : Char → Bool} {l1 : List Char}
    (x : Char) (l2 : List Char) (h1 : ∀ c ∈ l1, p c = true)
    (hx : p x = false) :
    (l1 ++ x :: l2).takeWhile p = l1 ∧
      (l1 ++ x :: l2).dropWhile p = x :: l2 := by
  induction l1 with
  | nil =>
    constructor
    · show (x :: l2).takeWhile p = []
      simp [List.takeWhile_cons, hx]
    · show (x :: l2).dropWhile p = x :: l2
      simp [List.dropWhile_cons, hx]
  | cons c cs ih =>
    obtain ⟨ht, hd⟩ := ih (fun c2 hc2 => h1 c2 (List.mem_cons_of_mem c hc2))
    have hc := h1 c (List.mem_cons_self c cs)
    constructor
    · show (c :: (cs ++ x :: l2)).takeWhile p = c :: cs
      simp [List.takeWhile_cons, hc, ht]
    · show (c :: (cs ++ x :: l2)).dropWhile p = x :: l2
      simp [List.dropWhile_cons, hc, hd]

theorem splitSign_neg (r : List Char) : splitSign ('-' :: r) = (true, r) := by
  simp only [splitSign]
  have h : ¬ ('-' : Char) = '+' := by decide
  rw [if_neg h, if_pos True.intro]

theorem splitSign_not_sign {c : Char} (r : List Char) (h1 : ¬ c = '+')
    (h2 : ¬ c = '-') : splitSign (c :: r) = (false, c :: r) := by
  simp only [splitSign]
  rw [if_neg h1, if_neg h2]

/-- The head of a decimal rendering, made explicit together with its
digit value. -/
theorem natToChars_cons (n : Nat) :
    ∃ d ms, d < 10 ∧ natToChars n = Char.ofNat (48 + d) :: ms := by
  cases hx : natToChars n with
  | nil => exact absurd hx (natToChars_ne_nil n)
  | cons c ms =>
    obtain ⟨d, hd, rfl⟩ := natToChars_form n c (by rw [hx]; exact List.mem_cons_self c ms)
    exact ⟨d, ms, hd, rfl⟩

theorem parseFloatExp_encode (e : Int) :
    parseFloatExp ('e' :: expToChars e) = some e := by
  have hall : (natToChars e.natAbs).all (fun c => (digitVal c).isSome) = true :=
    List.all_eq_true.mpr (natToChars_digit e.natAbs)
  have hcond : (decide (natToChars e.natAbs ≠ []) &&
      (natToChars e.natAbs).all (fun c => (digitVal c).isSome)) = true := by
    rw [decide_eq_true (natToChars_ne_nil e.natAbs), hall]
    rfl
  simp only [parseFloatExp]
  split
  · by_cases he : e < 0
    · have hexp : expToChars e = '-' :: natToChars e.natAbs := by
        unfold expToChars
        rw [if_pos he]
      rw [hexp, splitSign_neg]
      dsimp only
      rw [if_pos hcond]
      show some (-(digitsToNat (natToChars e.natAbs) : Int)) = some e
      rw [digitsToNat_natToChars]
      have hv : -((e.natAbs : Nat) : Int) = e := by omega
      rw [hv]
    · have hexp : expToChars e = natToChars e.natAbs := by
        unfold expToChars
        rw [if_neg he]
      obtain ⟨d, ms, hd, hcr⟩ := natToChars_cons e.natAbs
      obtain ⟨hp, hm, _, _, _, _⟩ := digit_char_facts d hd
      rw [hexp, hcr, splitSign_not_sign ms hp hm, ← hcr]
      dsimp only
      rw [if_pos hcond]
      show some ((digitsToNat (natToChars e.natAbs) : Int)) = some e
      rw [digitsToNat_natToChars]
      have hv : ((e.natAbs : Nat) : Int) = e := by omega
      rw [hv]
  · rename_i h
    exact absurd (by decide) h

theorem parseFloatNumber_encode (neg : Bool) (m : Nat) (e : Int) :
    parseFloatNumber neg (natToChars m ++ 'e' :: expToChars e) =
      .ok (.finite neg m e) := by
  obtain ⟨ht, hd⟩ := takeWhile_dropWhile_append 'e' (expToChars e)
    (natToChars_digit m) (by decide)
  simp only [parseFloatNumber]
  rw [ht, hd]
  split
  · rename_i rest2 heq
    exfalso
    injection heq with h1 _
    exact absurd h1 (by decide)
  · rw [if_neg (natToChars_ne_nil m), parseFloatExp_encode e]
    dsimp only
    rw [digitsToNat_natToChars]

theorem parseRustFloat_floatToChars (v : RustFloatVal) :
    parseRustFloat (floatToChars v) = .ok v := by
  match v with
  | .nan => decide
  | .inf false => decide
  | .inf true => decide
  | .finite neg m e =>
    obtain ⟨d, ms, hd, hcr⟩ := natToChars_cons m
    obtain ⟨hp, hmn, hi, hn2, _, hlow⟩ := digit_char_facts d hd
    have hne1 : ¬ ((Char.ofNat (48 + d) :: (ms ++ 'e' :: expToChars e)).map
        asciiLower = ['i', 'n', 'f']) := by
      intro h
      rw [List.map_cons] at h
      injection h with h1 _
      rw [hlow] at h1
      exact hi h1
    have hne2 : ¬ ((Char.ofNat (48 + d) :: (ms ++ 'e' :: expToChars e)).map
        asciiLower = ['i', 'n', 'f', 'i', 'n', 'i', 't', 'y']) := by
      intro h
      rw [List.map_cons] at h
      injection h with h1 _
      rw [hlow] at h1
      exact hi h1
    have hne3 : ¬ ((Char.ofNat (48 + d) :: (ms ++ 'e' :: expToChars e)).map
        asciiLower = ['n', 'a', 'n']) := by
      intro h
      rw [List.map_cons] at h
      injection h with h1 _
      rw [hlow] at h1
      exact hn2 h1
    match neg with
    | false =>
      have hfc : floatToChars (.finite false m e) =
          Char.ofNat (48 + d) :: (ms ++ 'e' :: expToChars e) := by
        show (if false then ['-'] else []) ++ natToChars m ++ 'e' :: expToChars e = _
        rw [if_neg (by decide), List.nil_append, hcr, List.cons_append]
      rw [hfc]
      simp only [parseRustFloat]
      rw [splitSign_not_sign _ hp hmn]
      dsimp only
      rw [if_neg hne1, if_neg hne2, if_neg hne3]
      rw [← List.cons_append, ← hcr]
      exact parseFloatNumber_encode false m e
    | true =>
      have hfc : floatToChars (.finite true m e) =
          '-' :: (natToChars m ++ 'e' :: expToChars e) := by
        show (if true then ['-'] else []) ++ natToChars m ++ 'e' :: expToChars e = _
        rw [if_pos rfl]
        rfl
      rw [hfc]
      simp only [parseRustFloat]
      rw [splitSign_neg]
      dsimp only
      rw [hcr, List.cons_append]
      rw [if_neg hne1, if_neg hne2, if_neg hne3]
      rw [← List.cons_append, ← hcr]
      exact parseFloatNumber_encode true m e

theorem parseSigned_intToChars (bound : Nat) (v : Int)
    (h1 : -(bound : Int) ≤ v) (h2 : v < bound) :
    parseSigned bound (intToChars v) = .ok v := by
  obtain ⟨d, ms, hd, hcr⟩ := natToChars_cons v.natAbs
  obtain ⟨hp, hm, _, _, _, _⟩ := digit_char_facts d hd
  by_cases hv : v < 0
  · have hb : intToChars v = '-' :: natToChars v.natAbs := by
      unfold intToChars
      rw [if_pos hv]
    have hgo : parseDigitsGo (bound + 1) (natToChars v.natAbs) 0 =
        .ok v.natAbs := parseDigitsGo_natToChars (by omega)
    rw [hcr] at hgo
    rw [hb, hcr]
    simp only [parseSigned]
    have hpm : ¬ ('-' : Char) = '+' := by decide
    rw [if_neg hpm, if_pos True.intro, hgo]
    dsimp only
    have hval : -((v.natAbs : Nat) : Int) = v := by omega
    rw [hval]
  · have hb : intToChars v = natToChars v.natAbs := by
      unfold intToChars
      rw [if_neg hv]
    have hgo : parseDigitsGo bound (natToChars v.natAbs) 0 = .ok v.natAbs :=
      parseDigitsGo_natToChars (by omega)
    rw [hcr] at hgo
    rw [hb, hcr]
    simp only [parseSigned]
    rw [if_neg hp, if_neg hm, hgo]
    dsimp only
    have hval : ((v.natAbs : Nat) : Int) = v := by omega
    rw [hval]

theorem parseRustBool_toChars (b : Bool) :
    parseRustBool (boolToChars b) = .ok b := by
  cases b <;> decide

theorem parseRustChar_single (c : Char) : parseRustChar [c] = .ok c := rfl

/-- Generic round-trip for the `impl_stringly_types!` pipeline: if the
parse stage recovers `x` from a string, `from_bytes` recovers `x` from
that string's UTF-8 bytes. -/
theorem stringlyFromBytes_encode {α ε π : Type}
    (parse : List Char → Except π α) (fU : FromUtf8Error → ε) (fP : π → ε)
    (s : List Char) (x : α) (h : parse s = .ok x) :
    stringlyFromBytes parse fU fP (utf8Encode s) = .ok x := by
  unfold stringlyFromBytes
  rw [stringFromBytes_encode]
  dsimp only
  rw [h]

/-! ## The claimed properties -/

/-- C1: in the generated `FromMultiPart::decode`, fields are decoded in the
declaration order of the record and decoding short-circuits on the first
failing field — when every field before `f` converts successfully and `f`'s
`map.get` fails with `e`, the whole decode returns exactly `e`, whatever
the fields after `f` would have done and with no partial record; in
particular the record `{ id: u32, title: String }` decoded from a request
carrying only a `title` part reports the `id`-missing error. -/
theorem decode_declaration_order_short_circuit :
    (∀ (fs1 : List FieldSpec) (f : FieldSpec) (fs2 : List FieldSpec)
        (m : MultiPartMap) (e : PoemError),
      (∀ g ∈ fs1, ∃ v, m.get g.conv g.key = .ok v) →
      m.get f.conv f.key = .error e →
      decodeFields (fs1 ++ f :: fs2) m = .error e) ∧
    (MultiPartMap.new (okEvents [(some "title", utf8Encode ['o', 'k'])])).map
      Body.decode = .ok (.error (badRequest (valueNotFoundMessage "id"))) := by
  refine ⟨?_, by decide⟩
  intro fs1 f fs2 m e hpre hf
  induction fs1 with
  | nil =>
    show decodeFields (f :: fs2) m = .error e
    simp only [decodeFields]
    rw [hf]
  | cons g rest ih =>
    obtain ⟨v, hv⟩ := hpre g (List.mem_cons_self g rest)
    show decodeFields (g :: (rest ++ f :: fs2)) m = .error e
    simp only [decodeFields]
    rw [hv]
    dsimp only
    rw [ih (fun g2 hg2 => hpre g2 (List.mem_cons_of_mem g hg2))]

theorem decode_declaration_order_short_circuit_witness :
    (∀ g ∈ ([] : List FieldSpec), ∃ v, MultiPartMap.empty.get g.conv g.key = .ok v) ∧
    MultiPartMap.empty.get u32Conv "id" =
      .error (badRequest (valueNotFoundMessage "id")) ∧
    decodeFields
        [⟨Nat, "id", u32Conv⟩, ⟨List Char, "title", stringConv⟩]
        MultiPartMap.empty =
      .error (badRequest (valueNotFoundMessage "id")) :=
  ⟨fun g hg => absurd hg (List.not_mem_nil g), rfl,
    decode_declaration_order_short_circuit.1 [] ⟨Nat, "id", u32Conv⟩
      [⟨List Char, "title", stringConv⟩] MultiPartMap.empty _
      (fun g hg => absurd hg (List.not_mem_nil g)) rfl⟩

/-- C2: querying a name absent from the field map fails with the
"field not found" error naming that field for every converter that keeps
the default absent-value policy — which every implementation in `part.rs`
other than `Option<T>` does, as the last block of equations records — while
the `Option<T>` converter succeeds with `none`. -/
theorem absent_field_policy :
    (∀ (V : Type) (c : Conv V) (m : MultiPartMap) (key : String),
      m.find key = none → c.handleAbsent = defaultHandleAbsent V →
      m.get c key = .error (badRequest (valueNotFoundMessage key))) ∧
    (∀ (V : Type) (c : Conv V) (m : MultiPartMap) (key : String),
      m.find key = none → m.get (optionConv c) key = .ok none) ∧
    (stringConv.handleAbsent = defaultHandleAbsent (List Char) ∧
      u8Conv.handleAbsent = defaultHandleAbsent Nat ∧
      u16Conv.handleAbsent = defaultHandleAbsent Nat ∧
      u32Conv.handleAbsent = defaultHandleAbsent Nat ∧
      u64Conv.handleAbsent = defaultHandleAbsent Nat ∧
      u128Conv.handleAbsent = defaultHandleAbsent Nat ∧
      i8Conv.handleAbsent = defaultHandleAbsent Int ∧
      i16Conv.handleAbsent = defaultHandleAbsent Int ∧
      i32Conv.handleAbsent = defaultHandleAbsent Int ∧
      i64Conv.handleAbsent = defaultHandleAbsent Int ∧
      i128Conv.handleAbsent = defaultHandleAbsent Int ∧
      boolConv.handleAbsent = defaultHandleAbsent Bool ∧
      charConv.handleAbsent = defaultHandleAbsent Char ∧
      f32Conv.handleAbsent = defaultHandleAbsent RustFloatVal ∧
      f64Conv.handleAbsent = defaultHandleAbsent RustFloatVal ∧
      bytesConv.handleAbsent = defaultHandleAbsent (List Nat)) := by
  refine ⟨?_, ?_, rfl, rfl, rfl, rfl, rfl, rfl, rfl, rfl, rfl, rfl, rfl,
    rfl, rfl, rfl, rfl, rfl⟩
  · intro V c m key h hd
    rw [get_absent c m key h, hd]
    rfl
  · intro V c m key h
    rw [get_absent (optionConv c) m key h]
    rfl

theorem absent_field_policy_witness :
    MultiPartMap.empty.find "missing" = none ∧
    MultiPartMap.empty.get u32Conv "missing" =
      .error (badRequest (valueNotFoundMessage "missing")) ∧
    MultiPartMap.empty.get (optionConv stringConv) "missing" = .ok none :=
  ⟨rfl,
    absent_field_policy.1 Nat u32Conv MultiPartMap.empty "missing" rfl rfl,
    absent_field_policy.2.1 (List Char) stringConv MultiPartMap.empty
      "missing" rfl⟩

/-- C3: every `impl_stringly_types!` implementation (`bool`, `char`, the
ten integer widths, `f32`, `f64`) converts a payload by UTF-8 decoding it
and then parsing the text, and on failure the error's variant names the
stage that failed: `ConvertionToString` exactly when the UTF-8 stage
failed, and the parse-stage variant exactly when the text failed to
parse. -/
theorem from_bytes_staged_pipeline :
    StagedPipeline boolFromBytes parseRustBool .convertionToString
      .convertionToFloat ∧
    StagedPipeline charFromBytes parseRustChar .convertionToString
      .convertionToChar ∧
    StagedPipeline f32FromBytes parseRustFloat .convertionToString
      .convertionToFloat ∧
    StagedPipeline f64FromBytes parseRustFloat .convertionToString
      .convertionToFloat ∧
    StagedPipeline u8FromBytes (parseUnsigned (uBound 8)) .convertionToString
      .convertionToInt ∧
    StagedPipeline u16FromBytes (parseUnsigned (uBound 16))
      .convertionToString .convertionToInt ∧
    StagedPipeline u32FromBytes (parseUnsigned (uBound 32))
      .convertionToString .convertionToInt ∧
    StagedPipeline u64FromBytes (parseUnsigned (uBound 64))
      .convertionToString .convertionToInt ∧
    StagedPipeline u128FromBytes (parseUnsigned (uBound 128))
      .convertionToString .convertionToInt ∧
    StagedPipeline i8FromBytes (parseSigned (iBound 8)) .convertionToString
      .convertionToInt ∧
    StagedPipeline i16FromBytes (parseSigned (iBound 16))
      .convertionToString .convertionToInt ∧
    StagedPipeline i32FromBytes (parseSigned (iBound 32))
      .convertionToString .convertionToInt ∧
    StagedPipeline i64FromBytes (parseSigned (iBound 64))
      .convertionToString .convertionToInt ∧
    StagedPipeline i128FromBytes (parseSigned (iBound 128))
      .convertionToString .convertionToInt :=
  ⟨stringlyFromBytes_staged _ _ _, stringlyFromBytes_staged _ _ _,
    stringlyFromBytes_staged _ _ _, stringlyFromBytes_staged _ _ _,
    stringlyFromBytes_staged _ _ _, stringlyFromBytes_staged _ _ _,
    stringlyFromBytes_staged _ _ _, stringlyFromBytes_staged _ _ _,
    stringlyFromBytes_staged _ _ _, stringlyFromBytes_staged _ _ _,
    stringlyFromBytes_staged _ _ _, stringlyFromBytes_staged _ _ _,
    stringlyFromBytes_staged _ _ _, stringlyFromBytes_staged _ _ _⟩

/-- C4: the claim that every failure from `MultiPartMap::get` names the
offending field does not hold for conversion failures. `get` wraps the
bare converter error in `BadRequest` without the key, so decoding the
part `qty = "abc"` as `u32` yields a message carrying only the integer
parse failure — `"qty"` appears nowhere in it — even though the same
module declares `MultiPartMapError::DecodeError`, whose rendering for this
failure does name the field, and `get`'s own documentation claims a
`MultiPartMapError` is returned (the variant is never constructed). The
missing-field path, by contrast, does name the field. -/
theorem get_conversion_failure_message_omits_field :
    (MultiPartMap.empty.insert "qty" (utf8Encode ['a', 'b', 'c'])).get
        u32Conv "qty" =
      .error (badRequest
        "Could not parse the value as a integer: invalid digit found in string") ∧
    strContains
      "Could not parse the value as a integer: invalid digit found in string"
      "qty" = false ∧
    strContains (valueNotFoundMessage "qty") "qty" = true ∧
    strContains
      (MultiPartMapError.message
        ⟨"qty", "Could not parse the value as a integer: invalid digit found in string"⟩)
      "qty" = true := by
  refine ⟨by decide, by decide, by decide, by decide⟩

/-- C5: the field map built from a run of successfully fetched parts always
succeeds; each name maps to the bytes of the *last* part carrying it
(`lastNamed`, which ignores unnamed parts), and a part with no name is
dropped outright, leaving construction unchanged. -/
theorem map_construction_last_wins_drops_unnamed :
    (∀ (parts : List (Option String × List Nat)) (k : String),
      ∃ m, MultiPartMap.new (okEvents parts) = .ok m ∧
        m.find k = lastNamed parts k) ∧
    (∀ (v : List Nat) (parts : List (Option String × List Nat)),
      MultiPartMap.new (okEvents ((none, v) :: parts)) =
        MultiPartMap.new (okEvents parts)) := by
  constructor
  · intro parts k
    obtain ⟨m, hm, hf⟩ := newGo_okEvents parts MultiPartMap.empty
    refine ⟨m, hm, ?_⟩
    rw [hf k]
    cases hl : lastNamed parts k <;> rfl
  · intro v parts
    rfl

/-- C6: every failure this component produces is a 400-status client error:
any `get` failure has status 400 whenever the converter's absent-value
policy only produces 400s — which holds for every implementation in
`part.rs` — and the (unused) `MultiPartMapError` response type also reports
status 400. -/
theorem failures_are_client_errors :
    (∀ (V : Type) (c : Conv V) (m : MultiPartMap) (key : String)
        (e : PoemError),
      absentPolicyClientOnly c → m.get c key = .error e → e.status = 400) ∧
    (absentPolicyClientOnly stringConv ∧
      absentPolicyClientOnly u8Conv ∧
      absentPolicyClientOnly u16Conv ∧
      absentPolicyClientOnly u32Conv ∧
      absentPolicyClientOnly u64Conv ∧
      absentPolicyClientOnly u128Conv ∧
      absentPolicyClientOnly i8Conv ∧
      absentPolicyClientOnly i16Conv ∧
      absentPolicyClientOnly i32Conv ∧
      absentPolicyClientOnly i64Conv ∧
      absentPolicyClientOnly i128Conv ∧
      absentPolicyClientOnly boolConv ∧
      absentPolicyClientOnly charConv ∧
      absentPolicyClientOnly f32Conv ∧
      absentPolicyClientOnly f64Conv ∧
      absentPolicyClientOnly bytesConv ∧
      ∀ (V : Type) (c : Conv V), absentPolicyClientOnly (optionConv c)) ∧
    (∀ err : MultiPartMapError, err.status = 400) := by
  refine ⟨?_,
    ⟨mkConv_absentPolicyClientOnly _ _, mkConv_absentPolicyClientOnly _ _,
      mkConv_absentPolicyClientOnly _ _, mkConv_absentPolicyClientOnly _ _,
      mkConv_absentPolicyClientOnly _ _, mkConv_absentPolicyClientOnly _ _,
      mkConv_absentPolicyClientOnly _ _, mkConv_absentPolicyClientOnly _ _,
      mkConv_absentPolicyClientOnly _ _, mkConv_absentPolicyClientOnly _ _,
      mkConv_absentPolicyClientOnly _ _, mkConv_absentPolicyClientOnly _ _,
      mkConv_absentPolicyClientOnly _ _, mkConv_absentPolicyClientOnly _ _,
      mkConv_absentPolicyClientOnly _ _, mkConv_absentPolicyClientOnly _ _,
      fun V c => optionConv_absentPolicyClientOnly c⟩,
    fun _ => rfl⟩
  intro V c m key e hpol h
  unfold MultiPartMap.get at h
  cases hf : m.find key with
  | some v =>
    rw [hf] at h
    dsimp only at h
    cases hb : c.fromBytes v with
    | ok a =>
      rw [hb] at h
      exact Except.noConfusion h
    | error msg =>
      rw [hb] at h
      injection h with h2
      rw [← h2]
      rfl
  | none =>
    rw [hf] at h
    exact hpol key e h

theorem failures_are_client_errors_witness :
    absentPolicyClientOnly u32Conv ∧
    (MultiPartMap.empty.insert "qty" (utf8Encode ['a', 'b', 'c'])).get
        u32Conv "qty" =
      .error (badRequest
        "Could not parse the value as a integer: invalid digit found in string") ∧
    (badRequest
      "Could not parse the value as a integer: invalid digit found in string").status
      = 400 :=
  ⟨mkConv_absentPolicyClientOnly _ _, by decide,
    failures_are_client_errors.1 Nat u32Conv
      (MultiPartMap.empty.insert "qty" (utf8Encode ['a', 'b', 'c'])) "qty" _
      (mkConv_absentPolicyClientOnly _ _) (by decide)⟩

/-- C7: textual round-trip for every value of every supported textual
type: every string decoded from its UTF-8 encoding gives back the string,
and for `bool`, `char`, each of the ten integer widths (each value in its
type's range) and the float model, decoding the UTF-8 bytes of the value's
textual representation through `from_bytes` reproduces the value exactly;
in particular the record `{ id: u32, title: String }` decoded from the
parts `id = "42"`, `title = "Hello"` equals `{ id: 42, title: "Hello" }`.
For `f32`/`f64` the value is the exact-decimal model of `RustFloatVal` and
its textual representation is `floatToChars` (see there); IEEE formatting
itself is outside the float model. -/
theorem textual_round_trip :
    (∀ s : List Char, stringFromBytes (utf8Encode s) = .ok s) ∧
    (∀ b : Bool, boolFromBytes (utf8Encode (boolToChars b)) = .ok b) ∧
    (∀ c : Char, charFromBytes (utf8Encode [c]) = .ok c) ∧
    (∀ n : Nat, n < uBound 8 →
      u8FromBytes (utf8Encode (natToChars n)) = .ok n) ∧
    (∀ n : Nat, n < uBound 16 →
      u16FromBytes (utf8Encode (natToChars n)) = .ok n) ∧
    (∀ n : Nat, n < uBound 32 →
      u32FromBytes (utf8Encode (natToChars n)) = .ok n) ∧
    (∀ n : Nat, n < uBound 64 →
      u64FromBytes (utf8Encode (natToChars n)) = .ok n) ∧
    (∀ n : Nat, n < uBound 128 →
      u128FromBytes (utf8Encode (natToChars n)) = .ok n) ∧
    (∀ v : Int, -(iBound 8 : Int) ≤ v → v < iBound 8 →
      i8FromBytes (utf8Encode (intToChars v)) = .ok v) ∧
    (∀ v : Int, -(iBound 16 : Int) ≤ v → v < iBound 16 →
      i16FromBytes (utf8Encode (intToChars v)) = .ok v) ∧
    (∀ v : Int, -(iBound 32 : Int) ≤ v → v < iBound 32 →
      i32FromBytes (utf8Encode (intToChars v)) = .ok v) ∧
    (∀ v : Int, -(iBound 64 : Int) ≤ v → v < iBound 64 →
      i64FromBytes (utf8Encode (intToChars v)) = .ok v) ∧
    (∀ v : Int, -(iBound 128 : Int) ≤ v → v < iBound 128 →
      i128FromBytes (utf8Encode (intToChars v)) = .ok v) ∧
    (∀ v : RustFloatVal,
      f32FromBytes (utf8Encode (floatToChars v)) = .ok v) ∧
    (∀ v : RustFloatVal,
      f64FromBytes (utf8Encode (floatToChars v)) = .ok v) ∧
    (MultiPartMap.new (okEvents
        [(some "id", utf8Encode (natToChars 42)),
          (some "title", utf8Encode ['H', 'e', 'l', 'l', 'o'])])).map
      Body.decode = .ok (.ok ⟨42, ['H', 'e', 'l', 'l', 'o']⟩) :=
  ⟨stringFromBytes_encode,
    fun b => stringlyFromBytes_encode parseRustBool _ _ (boolToChars b) b
      (parseRustBool_toChars b),
    fun c => stringlyFromBytes_encode parseRustChar _ _ [c] c
      (parseRustChar_single c),
    fun n hn => stringlyFromBytes_encode (parseUnsigned (uBound 8)) _ _
      (natToChars n) n (parseUnsigned_natToChars (uBound 8) n hn),
    fun n hn => stringlyFromBytes_encode (parseUnsigned (uBound 16)) _ _
      (natToChars n) n (parseUnsigned_natToChars (uBound 16) n hn),
    fun n hn => stringlyFromBytes_encode (parseUnsigned (uBound 32)) _ _
      (natToChars n) n (parseUnsigned_natToChars (uBound 32) n hn),
    fun n hn => stringlyFromBytes_encode (parseUnsigned (uBound 64)) _ _
      (natToChars n) n (parseUnsigned_natToChars (uBound 64) n hn),
    fun n hn => stringlyFromBytes_encode (parseUnsigned (uBound 128)) _ _
      (natToChars n) n (parseUnsigned_natToChars (uBound 128) n hn),
    fun v hl hr => stringlyFromBytes_encode (parseSigned (iBound 8)) _ _
      (intToChars v) v (parseSigned_intToChars (iBound 8) v hl hr),
    fun v hl hr => stringlyFromBytes_encode (parseSigned (iBound 16)) _ _
      (intToChars v) v (parseSigned_intToChars (iBound 16) v hl hr),
    fun v hl hr => stringlyFromBytes_encode (parseSigned (iBound 32)) _ _
      (intToChars v) v (parseSigned_intToChars (iBound 32) v hl hr),
    fun v hl hr => stringlyFromBytes_encode (parseSigned (iBound 64)) _ _
      (intToChars v) v (parseSigned_intToChars (iBound 64) v hl hr),
    fun v hl hr => stringlyFromBytes_encode (parseSigned (iBound 128)) _ _
      (intToChars v) v (parseSigned_intToChars (iBound 128) v hl hr),
    fun v => stringlyFromBytes_encode parseRustFloat _ _ (floatToChars v) v
      (parseRustFloat_floatToChars v),
    fun v => stringlyFromBytes_encode parseRustFloat _ _ (floatToChars v) v
      (parseRustFloat_floatToChars v),
    by decide⟩

theorem textual_round_trip_witness :
    (255 < uBound 8 ∧ u8FromBytes (utf8Encode (natToChars 255)) = .ok 255) ∧
    (65535 < uBound 16 ∧
      u16FromBytes (utf8Encode (natToChars 65535)) = .ok 65535) ∧
    (42 < uBound 32 ∧ u32FromBytes (utf8Encode (natToChars 42)) = .ok 42) ∧
    (1 < uBound 64 ∧ u64FromBytes (utf8Encode (natToChars 1)) = .ok 1) ∧
    (0 < uBound 128 ∧ u128FromBytes (utf8Encode (natToChars 0)) = .ok 0) ∧
    (-(iBound 8 : Int) ≤ -128 ∧ (-128 : Int) < iBound 8 ∧
      i8FromBytes (utf8Encode (intToChars (-128))) = .ok (-128)) ∧
    (-(iBound 16 : Int) ≤ -321 ∧ (-321 : Int) < iBound 16 ∧
      i16FromBytes (utf8Encode (intToChars (-321))) = .ok (-321)) ∧
    (-(iBound 32 : Int) ≤ 7 ∧ (7 : Int) < iBound 32 ∧
      i32FromBytes (utf8Encode (intToChars 7)) = .ok 7) ∧
    (-(iBound 64 : Int) ≤ -1 ∧ (-1 : Int) < iBound 64 ∧
      i64FromBytes (utf8Encode (intToChars (-1))) = .ok (-1)) ∧
    (-(iBound 128 : Int) ≤ 0 ∧ (0 : Int) < iBound 128 ∧
      i128FromBytes (utf8Encode (intToChars 0)) = .ok 0) :=
  ⟨⟨by decide, textual_round_trip.2.2.2.1 255 (by decide)⟩,
    ⟨by decide, textual_round_trip.2.2.2.2.1 65535 (by decide)⟩,
    ⟨by decide, textual_round_trip.2.2.2.2.2.1 42 (by decide)⟩,
    ⟨by decide, textual_round_trip.2.2.2.2.2.2.1 1 (by decide)⟩,
    ⟨by decide, textual_round_trip.2.2.2.2.2.2.2.1 0 (by decide)⟩,
    ⟨by decide, by decide, textual_round_trip.2.2.2.2.2.2.2.2.1 (-128)
      (by decide) (by decide)⟩,
    ⟨by decide, by decide, textual_round_trip.2.2.2.2.2.2.2.2.2.1 (-321)
      (by decide) (by decide)⟩,
    ⟨by decide, by decide, textual_round_trip.2.2.2.2.2.2.2.2.2.2.1 7
      (by decide) (by decide)⟩,
    ⟨by decide, by decide, textual_round_trip.2.2.2.2.2.2.2.2.2.2.2.1 (-1)
      (by decide) (by decide)⟩,
    ⟨by decide, by decide, textual_round_trip.2.2.2.2.2.2.2.2.2.2.2.2.1 0
      (by decide) (by decide)⟩⟩

/-- C8: in a successful generation, each emitted `map.get` key is the
field's rename when one is declared and the field's own identifier
otherwise; in particular a field `name` renamed to `"full_name"` is looked
up under `"full_name"`. -/
theorem rename_determines_lookup_key :
    (∀ (name : String) (fields : List FieldDef)
        (pairs : List (String × String)),
      generate ⟨name, .structData fields⟩ = .ok pairs →
      pairs = fields.map (fun fd =>
        ((fd.ident).getD "", (fd.rename).getD ((fd.ident).getD "")))) ∧
    generate ⟨"User", .structData
        [⟨some "name", some "full_name"⟩, ⟨some "id", none⟩]⟩ =
      .ok [("name", "full_name"), ("id", "id")] :=
  ⟨fun _ _ _ h => (generateFields_ok h).2, by decide⟩

theorem rename_determines_lookup_key_witness :
    generate ⟨"User", .structData [⟨some "name", some "full_name"⟩]⟩ =
      .ok [("name", "full_name")] ∧
    [("name", "full_name")] =
      [(⟨some "name", some "full_name"⟩ : FieldDef)].map (fun fd =>
        ((fd.ident).getD "", (fd.rename).getD ((fd.ident).getD ""))) :=
  ⟨rfl, rename_determines_lookup_key.1 "User"
    [⟨some "name", some "full_name"⟩] [("name", "full_name")] rfl⟩

/-- C9: `generate` — the build-time half of the derive macro, which runs
while compiling the record and never at request time — fails on every
enum input, fails on every struct with an unnamed (tuple-like) field, and
succeeds exactly on plain structs all of whose fields are named. -/
theorem generate_rejects_enums_and_tuple_structs :
    (∀ name : String, generate ⟨name, .enumData⟩ =
      .error .enumNotSupported) ∧
    (∀ (name : String) (fields : List FieldDef),
      (∃ fd ∈ fields, fd.ident = none) →
      generate ⟨name, .structData fields⟩ = .error .tupleStruct) ∧
    (∀ (name : String) (fields : List FieldDef),
      (∀ fd ∈ fields, fd.ident ≠ none) →
      ∃ pairs, generate ⟨name, .structData fields⟩ = .ok pairs) :=
  ⟨fun _ => rfl,
    fun _ _ h => generateFields_unnamed h,
    fun _ _ h => generateFields_all_named h⟩

theorem generate_rejects_enums_and_tuple_structs_witness :
    generate ⟨"E", .enumData⟩ = .error .enumNotSupported ∧
    (∃ fd ∈ [(⟨none, none⟩ : FieldDef)], fd.ident = none) ∧
    generate ⟨"T", .structData [⟨none, none⟩]⟩ = .error .tupleStruct ∧
    (∀ fd ∈ [(⟨some "a", none⟩ : FieldDef)], fd.ident ≠ none) ∧
    (∃ pairs, generate ⟨"S", .structData [⟨some "a", none⟩]⟩ = .ok pairs) :=
  ⟨generate_rejects_enums_and_tuple_structs.1 "E",
    ⟨⟨none, none⟩, List.mem_singleton.mpr rfl, rfl⟩,
    generate_rejects_enums_and_tuple_structs.2.1 "T" [⟨none, none⟩]
      ⟨⟨none, none⟩, List.mem_singleton.mpr rfl, rfl⟩,
    fun fd hfd => by
      rw [List.mem_singleton.mp hfd]
      exact Option.noConfusion,
    generate_rejects_enums_and_tuple_structs.2.2 "S" [⟨some "a", none⟩]
      (fun fd hfd => by
        rw [List.mem_singleton.mp hfd]
        exact Option.noConfusion)⟩

/-- C10: during field-map construction, a `next_field` failure ends the
collection loop silently — the events after it are never examined and the
map of the parts collected so far is returned in `Ok` — while a `.error`
result from `new` can only arise from reading the byte payload of an
already-fetched *named* part. -/
theorem map_construction_error_handling :
    (∀ (l1 : List FieldEvent) (e : Nat) (l2 : List FieldEvent),
      MultiPartMap.new (l1 ++ .error e :: l2) = MultiPartMap.new l1) ∧
    (∀ (events : List FieldEvent) (e : Nat),
      MultiPartMap.new events = .error e →
      ∃ l1 f l2, events = l1 ++ .ok f :: l2 ∧ f.name ≠ none ∧
        f.value = .error e) :=
  ⟨fun l1 e l2 => newGo_fetch_error l1 e l2 MultiPartMap.empty,
    fun events e h => newGo_error_source events MultiPartMap.empty e h⟩

theorem map_construction_error_handling_witness :
    MultiPartMap.new [.ok ⟨some "a", .error 9⟩] = .error 9 ∧
    ∃ l1 f l2,
      ([.ok ⟨some "a", .error 9⟩] : List FieldEvent) =
        l1 ++ .ok f :: l2 ∧ f.name ≠ none ∧ f.value = .error 9 :=
  ⟨rfl, map_construction_error_handling.2 [.ok ⟨some "a", .error 9⟩] 9 rfl⟩

end PoemTypedMultipart
